import Mathlib

/-!
Shallow embedding of `bot.py`, a Telegram bot that extracts a YouTube link
from a chat message, asks the Gemini API for a summary, and relays the
summary back to the chat in chunks of at most 4000 characters.

Strings are modelled as `List Char` (Python strings are sequences of code
points, and `len`, slicing and substring containment act on code points).
-/

namespace TgYtBot

/-- Characters of a Lean string literal, used to write down the concrete
strings appearing in the Python source. -/
def lc (s : String) : List Char := s.data

/-! ## Python string helpers

`str.strip` / `str.split` (no argument) treat runs of whitespace as
separators and produce no empty tokens.  We model the ASCII whitespace
characters Python recognises; the claims never involve the further Unicode
whitespace code points, which behave identically. -/

/-- Whitespace as recognised by Python `str.split()` / `str.strip()`
(ASCII portion). -/
def isPySpace (c : Char) : Bool :=
  c = ' ' || c = '\t' || c = '\n' || c = '\x0d' || c = '\x0b' || c = '\x0c'

/-- Fuel-indexed splitter behind `tokens`: skip whitespace, else cut the
maximal non-whitespace token and continue after it.  The fuel only bounds
the recursion depth (each step consumes at least one character); `tokens`
passes the list's length, which is always enough. -/
def tokensF : Nat → List Char → List (List Char)
  | _, [] => []
  | 0, _ :: _ => []
  | fuel + 1, c :: cs =>
    if isPySpace c then tokensF fuel cs
    else (c :: cs.takeWhile (fun d => !isPySpace d))
        :: tokensF fuel (cs.dropWhile (fun d => !isPySpace d))

/-- Model of Python `str.split()` with no argument: split on runs of
whitespace, yielding the non-empty tokens in order. -/
def tokens (s : List Char) : List (List Char) := tokensF s.length s

/-- Model of Python `str.strip()`: remove leading and trailing whitespace. -/
def pyStrip (s : List Char) : List Char :=
  ((s.dropWhile isPySpace).reverse.dropWhile isPySpace).reverse

/-- The test `"youtube.com" in token or "youtu.be" in token` from
`extract_youtube_url` (Python `in` on strings is substring containment). -/
def hostMatch (tok : List Char) : Bool :=
  decide (lc "youtube.com" <:+: tok) || decide (lc "youtu.be" <:+: tok)

/-- `extract_youtube_url` (bot.py lines 45–50): strip the text, split on
whitespace, return the first token containing one of the two host
substrings, else `None`.  The `for`/early-`return` loop is `find?`. -/
def extract_youtube_url (text : List Char) : Option (List Char) :=
  (tokens (pyStrip text)).find? hostMatch

/-! ## Prompt builder

`GEMINI_PROMPT_TEMPLATE` (bot.py lines 17–28) is a fixed string with a
single `format` placeholder for the link.  Python `str.format` parses the
template into literal pieces and fields and substitutes the argument
verbatim (braces inside the *argument* are not re-parsed); the template is
modelled as its parsed piece list. -/

/-- A piece of a Python format template: a literal, or the single
`youtube_url` replacement field. -/
inductive TmplPiece
  | lit (s : List Char)
  | field
deriving DecidableEq

/-- Everything in `GEMINI_PROMPT_TEMPLATE` before the replacement field. -/
def promptPre : List Char :=
  lc "Identify and explain the core theses and insights from this video.\n\nAudience: Write for a crypto-native audience. Use our jargon (e.g., \"Fed,\" \"JPOW,\" \"bps,\" \"QT,\" \"TradFi,\" \"liquidity,\" \"FUD,\" \"counterparty risk,\" etc.).\n\nFormat: Use a simple list of standalone bullet points. Don\x27t use two-part bullets.\n\nSpecificity/Hedging: Be extremely specific. Do not use hedging language (e.g., avoid words like \"likely,\" \"seems,\" \"may,\" or \"suggests\"). State facts and conclusions directly. Include specific numbers or figures mentioned in the video (e.g., 25 bps, 76 million, six basis points) where possible.\n\nStyle: Speak directly to me in the second person. Do not use timestamps. Do not say \"the video says\" or \"the speaker argues.\" Just state the key points as facts, as if you are explaining the situation to me yourself.\n\nSummarize this YouTube video: "

/-- Everything in `GEMINI_PROMPT_TEMPLATE` after the replacement field
(the trailing newline before the closing triple quote). -/
def promptPost : List Char := lc "\n"

/-- The parsed `GEMINI_PROMPT_TEMPLATE`: literal prefix, the one
`youtube_url` field, literal newline. -/
def GEMINI_PROMPT_TEMPLATE : List TmplPiece :=
  [.lit promptPre, .field, .lit promptPost]

/-- Python `template.format` applied to this template: concatenate the
pieces, substituting the link for the field, unmodified. -/
def pyFormat (tmpl : List TmplPiece) (youtube_url : List Char) : List Char :=
  (tmpl.map fun p => match p with
    | .lit s => s
    | .field => youtube_url).flatten

/-- `prompt = GEMINI_PROMPT_TEMPLATE.format(youtube_url=youtube_url)`
(bot.py line 33). -/
def buildPrompt (youtube_url : List Char) : List Char :=
  pyFormat GEMINI_PROMPT_TEMPLATE youtube_url

/-! ## JSON values and the Gemini client -/

/-- JSON values, as produced by Python `response.json()` (`json.loads`). -/
inductive Json
  | null
  | bool (b : Bool)
  | num (n : Int)
  | str (s : List Char)
  | arr (elems : List Json)
  | obj (fields : List (List Char × Json))

/-- The request body `{"contents": [{"parts": [{"text": prompt}]}]}`
(bot.py line 34). -/
def geminiPayload (prompt : List Char) : Json :=
  .obj [(lc "contents",
    .arr [.obj [(lc "parts", .arr [.obj [(lc "text", .str prompt)]])]])]

/-- Python `d[key]` on a parsed-JSON value: succeeds only on a dict that
has the key.  `json.loads` lets a later duplicate key overwrite an earlier
one, hence the lookup on the reversed field list. -/
def jGet (j : Json) (key : List Char) : Option Json :=
  match j with
  | .obj fields => (fields.reverse.find? (fun kv => kv.1 == key)).map Prod.snd
  | _ => none

/-- Python `x[0]`: element 0 of a non-empty list; on a non-empty string it
yields the first character as a one-character string; every other case
raises. -/
def jIdx0 : Json → Option Json
  | .arr (x :: _) => some x
  | .str (c :: _) => some (.str [c])
  | _ => none

/-- The access path `data['candidates'][0]['content']['parts'][0]['text']`
(bot.py line 40); `none` means the Python expression raises. -/
def extractSummary (data : Json) : Option Json :=
  ((((((jGet data (lc "candidates")).bind jIdx0).bind
      (fun j => jGet j (lc "content"))).bind
      (fun j => jGet j (lc "parts"))).bind jIdx0).bind
      (fun j => jGet j (lc "text")))

/-- The fallback returned when the response structure is unexpected
(bot.py line 43). -/
def fallbackMsg : List Char :=
  lc "Sorry, something went wrong processing the summary."

/-- Outcome of the HTTP POST in `call_gemini`: a transport failure (DNS,
timeout, connection error — `requests.post` raises `RequestException`), or
a response with a status code and a body that either parses as JSON
(`some`) or does not (`none`). -/
inductive HttpOutcome
  | transportError
  | response (status : Nat) (body : Option Json)

/-- The one exception family the handler catches:
`requests.exceptions.RequestException`.  Transport errors, `HTTPError`
from `raise_for_status`, and the JSON decode error raised by
`response.json()` (a `RequestException` subclass since requests 2.27) all
belong to it. -/
inductive ReqError
  | requestException
deriving DecidableEq

/-- `response.raise_for_status()` raises `HTTPError` exactly for 4xx
client-error and 5xx server-error status codes. -/
def statusRaises (status : Nat) : Bool :=
  400 ≤ status && status < 600

/-- `call_gemini` (bot.py lines 32–43), given the HTTP outcome: propagate
transport errors; `raise_for_status`; `response.json()` raises on an
unparseable body (outside the `try`); then the nested access in the `try`
returns the extracted value, and on any failure of the access the fixed
fallback string is returned instead. -/
def call_gemini (outcome : HttpOutcome) : Except ReqError Json :=
  match outcome with
  | .transportError => .error .requestException
  | .response status body =>
    if statusRaises status then .error .requestException
    else
      match body with
      | none => .error .requestException
      | some data => .ok ((extractSummary data).getD (.str fallbackMsg))

/-! ## Chat adapter (`handle_message`) -/

/-- `max_len = 4000` (bot.py line 62). -/
def max_len : Nat := 4000

/-- Python `range(0, stop, step)` for positive `step`: the multiples of
`step` below `stop`, in order. -/
def pyRange (stop step : Nat) : List Nat :=
  (List.range ((stop + step - 1) / step)).map (· * step)

/-- The texts sent as replies on success (bot.py lines 62–67): the whole
summary if it fits in `max_len`, else the slices `summary[i:i+max_len]`
for `i in range(0, len(summary), max_len)`. -/
def chunkTexts (summary : List Char) : List (List Char) :=
  if summary.length ≤ max_len then [summary]
  else (pyRange summary.length max_len).map
    (fun i => (summary.drop i).take max_len)

/-- A Telegram message: `update.message.text` may be missing. -/
structure Msg where
  text : Option (List Char)

/-- An update from the platform: `update.message` may be missing. -/
structure Update where
  message : Option Msg

/-- Python truthiness of `update.message.text`: falsy when the attribute
is `None` or the empty string. -/
def pyFalsyText : Option (List Char) → Bool
  | none => true
  | some t => t.isEmpty

/-- The acknowledgment text (bot.py line 59; the source file contains a
mojibake-encoded dash, reproduced here). -/
def ackText : List Char :=
  lc "Got the link â€” fetching summary from Gemini..."

/-- The fixed error reply (bot.py line 70). -/
def apiErrMsg : List Char := lc "Error: failed to contact Gemini API."

/-- Observable platform actions of one handler invocation, in order. -/
inductive Action
  | sendReply (text : List Char)
  | deleteAck
deriving DecidableEq

/-- Result of one handler invocation: the actions performed, and whether
an uncaught exception propagates out of the handler. -/
structure Effects where
  actions : List Action
  raised : Bool
deriving DecidableEq

/-- The `finally` block (bot.py lines 71–75): `try: await ack.delete()
except Exception: pass`.  The deletion is attempted in both cases; when it
raises, the exception is discarded, so the emitted action is the same. -/
def finallyActions (deleteRaises : Bool) : List Action :=
  match deleteRaises with
  | true => [Action.deleteAck]
  | false => [Action.deleteAck]

/-- `handle_message` (bot.py lines 52–75) as a function from the update,
the HTTP outcome of the Gemini call, and whether `ack.delete()` would
raise, to the performed actions.  The `.ok` non-string case models the
(structurally possible, never claim-relevant) situation where the
extracted `text` field is not a string: `len(summary)` or `reply_text`
then raises a non-`RequestException` error, which the handler does not
catch, while the `finally` block still runs. -/
def handle_message (upd : Update) (outcome : HttpOutcome)
    (deleteRaises : Bool) : Effects :=
  match upd.message with
  | none => ⟨[], false⟩
  | some m =>
    if pyFalsyText m.text then ⟨[], false⟩
    else
      match extract_youtube_url (m.text.getD []) with
      | none => ⟨[], false⟩
      | some _url =>
        let ack := [Action.sendReply ackText]
        let fin := finallyActions deleteRaises
        match call_gemini outcome with
        | .ok (.str summary) =>
          ⟨ack ++ (chunkTexts summary).map Action.sendReply ++ fin, false⟩
        | .ok _ => ⟨ack ++ fin, true⟩
        | .error _ => ⟨ack ++ [Action.sendReply apiErrMsg] ++ fin, false⟩

/-! ## Process entry point -/

/-- The `SystemExit` message (bot.py line 12). -/
def exitMsg : List Char :=
  lc "Set TELEGRAM_BOT_TOKEN and GEMINI_API_KEY environment variables"

/-- Python truthiness of an `os.getenv` result: truthy iff present and
non-empty (`not x` is true on both `None` and `""`). -/
def pyTruthyStr : Option (List Char) → Bool
  | none => false
  | some s => !s.isEmpty

/-- Module start-up (bot.py lines 8–12 and `main`): given the two
`os.getenv` results, either `raise SystemExit` with the message before the
event loop is ever built, or proceed to `main()`, which starts polling
(`.ok`). -/
def startup (telegram_bot_token gemini_api_key : Option (List Char)) :
    Except (List Char) Unit :=
  if !pyTruthyStr telegram_bot_token || !pyTruthyStr gemini_api_key then
    .error exitMsg
  else
    .ok ()

/-- A well-shaped Gemini response body whose summary text is `s`. -/
def wellFormedBody (s : List Char) : Json :=
  .obj [(lc "candidates",
    .arr [.obj [(lc "content",
      .obj [(lc "parts", .arr [.obj [(lc "text", .str s)]])])]])]

/-! ## Lemmas: the slice loop -/

/-- Recursive companion of the slice loop, convenient for induction. -/
def chunksRec (s : List Char) : List (List Char) :=
  if s = [] then [] else s.take max_len :: chunksRec (s.drop max_len)
termination_by s.length
decreasing_by
  have hpos : 0 < s.length := by
    cases s with
    | nil => simp_all
    | cons a t => simp
  simp only [List.length_drop, max_len]
  omega

lemma pyRange_zero (step : Nat) : pyRange 0 step = [] := by
  unfold pyRange
  have h : (0 + step - 1) / step = 0 := by
    cases step with
    | zero => simp
    | succ n => exact Nat.div_eq_of_lt (by omega)
  rw [h]
  simp

lemma pyRange_pos (stop step : Nat) (hstep : 0 < step) (hstop : 0 < stop) :
    pyRange stop step = 0 :: (pyRange (stop - step) step).map (· + step) := by
  have hcount : (stop + step - 1) / step = (stop - step + step - 1) / step + 1 := by
    rcases le_or_lt stop step with hle | hlt
    · have h1 : stop + step - 1 = (stop - 1) + step := by omega
      have h2 : stop - step = 0 := by omega
      rw [h1, Nat.add_div_right _ hstep, h2, Nat.zero_add]
      have h3 : (stop - 1) / step = 0 := Nat.div_eq_of_lt (by omega)
      have h4 : (step - 1) / step = 0 := Nat.div_eq_of_lt (by omega)
      omega
    · have h1 : stop + step - 1 = (stop - step + step - 1) + step := by omega
      rw [h1, Nat.add_div_right _ hstep]
  unfold pyRange
  rw [hcount, List.range_succ_eq_map]
  simp only [List.map_cons, List.map_map, Nat.zero_mul]
  congr 1
  apply List.map_congr_left
  intro k _
  simp [Function.comp, Nat.succ_mul]

lemma chunksRec_nil : chunksRec [] = [] := by
  rw [chunksRec]
  simp

lemma chunksRec_cons (s : List Char) (h : s ≠ []) :
    chunksRec s = s.take max_len :: chunksRec (s.drop max_len) := by
  rw [chunksRec]
  simp [h]

/-- The mapped-range form of the slice loop agrees with the recursive
form. -/
lemma slices_eq_chunksRec (s : List Char) :
    (pyRange s.length max_len).map (fun i => (s.drop i).take max_len)
      = chunksRec s := by
  by_cases h : s = []
  · subst h
    simp [pyRange_zero, chunksRec_nil]
  · have hpos : 0 < s.length := List.length_pos.mpr h
    rw [pyRange_pos s.length max_len (by simp [max_len]) hpos]
    rw [chunksRec_cons s h]
    simp only [List.map_cons, List.drop_zero, List.map_map]
    congr 1
    have hlen : s.length - max_len = (s.drop max_len).length := by
      simp [List.length_drop]
    rw [hlen]
    have ih := slices_eq_chunksRec (s.drop max_len)
    rw [← ih]
    apply List.map_congr_left
    intro k _
    simp [Function.comp, List.drop_drop, Nat.add_comm]
termination_by s.length
decreasing_by
  simp only [List.length_drop, max_len]
  have _hpos : 0 < s.length := List.length_pos.mpr h
  omega

lemma chunksRec_flatten (s : List Char) : (chunksRec s).flatten = s := by
  by_cases h : s = []
  · subst h; simp [chunksRec_nil]
  · rw [chunksRec_cons s h]
    simp only [List.flatten_cons]
    rw [chunksRec_flatten (s.drop max_len)]
    exact List.take_append_drop _ _
termination_by s.length
decreasing_by
  simp only [List.length_drop, max_len]
  have hpos : 0 < s.length := List.length_pos.mpr h
  omega

lemma chunksRec_length_le (s : List Char) :
    ∀ c ∈ chunksRec s, c.length ≤ max_len := by
  intro c hc
  by_cases h : s = []
  · subst h; simp [chunksRec_nil] at hc
  · rw [chunksRec_cons s h] at hc
    rcases List.mem_cons.mp hc with hc | hc
    · subst hc
      simp [List.length_take]
    · exact chunksRec_length_le (s.drop max_len) c hc
termination_by s.length
decreasing_by
  simp only [List.length_drop, max_len]
  have hpos : 0 < s.length := List.length_pos.mpr h
  omega

lemma chunksRec_eq_nil_iff (s : List Char) : chunksRec s = [] ↔ s = [] := by
  constructor
  · intro h
    by_cases hs : s = []
    · exact hs
    · rw [chunksRec_cons s hs] at h
      simp at h
  · intro h; subst h; exact chunksRec_nil

lemma chunksRec_dropLast_length (s : List Char) :
    ∀ c ∈ (chunksRec s).dropLast, c.length = max_len := by
  intro c hc
  by_cases h : s = []
  · subst h; simp [chunksRec_nil] at hc
  · rw [chunksRec_cons s h] at hc
    by_cases hrest : chunksRec (s.drop max_len) = []
    · rw [hrest] at hc
      simp at hc
    · rw [List.dropLast_cons_of_ne_nil hrest] at hc
      rcases List.mem_cons.mp hc with hc | hc
      · subst hc
        have hd : s.drop max_len ≠ [] := (chunksRec_eq_nil_iff _).not.mp hrest
        have hlen : max_len < s.length := by
          have := List.length_pos.mpr hd
          simp only [List.length_drop] at this
          omega
        simp [List.length_take]
        omega
      · exact chunksRec_dropLast_length (s.drop max_len) c hc
termination_by s.length
decreasing_by
  simp only [List.length_drop, max_len]
  have hpos : 0 < s.length := List.length_pos.mpr h
  omega

lemma chunkTexts_eq (s : List Char) :
    chunkTexts s = if s.length ≤ max_len then [s] else chunksRec s := by
  unfold chunkTexts
  by_cases h : s.length ≤ max_len
  · simp [h]
  · simp only [h, if_false]
    exact slices_eq_chunksRec s

/-! ## Lemmas: the tokenizer -/

lemma length_dropWhile_le (p : Char → Bool) (l : List Char) :
    (l.dropWhile p).length ≤ l.length := by
  have h : l.dropWhile p <:+ l := List.dropWhile_suffix p
  exact h.sublist.length_le

lemma tokensF_stable (f1 : Nat) : ∀ (f2 : Nat) (s : List Char),
    s.length ≤ f1 → s.length ≤ f2 → tokensF f1 s = tokensF f2 s := by
  induction f1 with
  | zero =>
    intro f2 s h1 _
    have hs : s = [] := List.eq_nil_of_length_eq_zero (Nat.le_zero.mp h1)
    subst hs
    cases f2 <;> rfl
  | succ f1 ih =>
    intro f2 s h1 h2
    cases s with
    | nil => cases f2 <;> rfl
    | cons c cs =>
      simp only [List.length_cons] at h1 h2
      cases f2 with
      | zero => omega
      | succ f2 =>
        show tokensF (f1 + 1) (c :: cs) = tokensF (f2 + 1) (c :: cs)
        rw [tokensF, tokensF]
        by_cases hc : isPySpace c
        · simp only [hc, if_true]
          exact ih f2 cs (by omega) (by omega)
        · simp only [hc, Bool.false_eq_true, if_false]
          have hd := length_dropWhile_le (fun d => !isPySpace d) cs
          rw [ih f2 (cs.dropWhile (fun d => !isPySpace d)) (by omega) (by omega)]

lemma tokens_nil : tokens [] = [] := rfl

lemma tokens_cons_space (c : Char) (cs : List Char) (h : isPySpace c = true) :
    tokens (c :: cs) = tokens cs := by
  show tokensF (c :: cs).length (c :: cs) = tokens cs
  simp only [List.length_cons]
  rw [tokensF, h, if_pos rfl]
  rfl

lemma tokens_cons_nonspace (c : Char) (cs : List Char)
    (h : isPySpace c = false) :
    tokens (c :: cs) = (c :: cs.takeWhile (fun d => !isPySpace d))
        :: tokens (cs.dropWhile (fun d => !isPySpace d)) := by
  show tokensF (c :: cs).length (c :: cs) = _
  simp only [List.length_cons]
  rw [tokensF, h]
  simp only [Bool.false_eq_true, if_false, List.cons.injEq, true_and]
  exact tokensF_stable cs.length (cs.dropWhile (fun d => !isPySpace d)).length
      (cs.dropWhile (fun d => !isPySpace d))
      (length_dropWhile_le _ cs) le_rfl

/-! ## Lemmas: the Gemini client and the handler -/

lemma extractSummary_wellFormed (s : List Char) :
    extractSummary (wellFormedBody s) = some (.str s) := rfl

lemma call_gemini_wellFormed (status : Nat) (s : List Char)
    (hs : statusRaises status = false) :
    call_gemini (.response status (some (wellFormedBody s))) = .ok (.str s) := by
  simp only [call_gemini, hs, Bool.false_eq_true, if_false,
    extractSummary_wellFormed, Option.getD_some]

lemma extract_text_not_falsy (text url : List Char)
    (h : extract_youtube_url text = some url) : pyFalsyText (some text) = false := by
  cases text with
  | nil =>
    exfalso
    rw [extract_youtube_url] at h
    simp [pyStrip, tokens_nil] at h
  | cons c cs => simp [pyFalsyText]

lemma finallyActions_eq (dr : Bool) : finallyActions dr = [Action.deleteAck] := by
  cases dr <;> rfl

/-- Unfolding of `handle_message` once a link has been extracted. -/
lemma handle_message_linked (text url : List Char) (outcome : HttpOutcome)
    (dr : Bool) (h : extract_youtube_url text = some url) :
    handle_message ⟨some ⟨some text⟩⟩ outcome dr =
      match call_gemini outcome with
      | .ok (.str summary) =>
        ⟨Action.sendReply ackText ::
          ((chunkTexts summary).map Action.sendReply ++ [Action.deleteAck]), false⟩
      | .ok _ => ⟨[Action.sendReply ackText, Action.deleteAck], true⟩
      | .error _ =>
        ⟨[Action.sendReply ackText, Action.sendReply apiErrMsg,
          Action.deleteAck], false⟩ := by
  unfold handle_message
  simp only [extract_text_not_falsy text url h, Bool.false_eq_true, if_false,
    Option.getD_some, h, finallyActions_eq]
  cases hg : call_gemini outcome with
  | error e => simp
  | ok j => cases j <;> simp

/-! ## Claim theorems -/

/-- Claim C2: the chunking performed by the adapter is a round-trip:
concatenating the produced chunks in order reconstructs the summary
exactly, every chunk is at most 4000 characters long, and every chunk
except possibly the last is exactly 4000 characters long. -/
theorem chunking_roundtrip (s : List Char) :
    (chunkTexts s).flatten = s
    ∧ (∀ c ∈ chunkTexts s, c.length ≤ max_len)
    ∧ (∀ c ∈ (chunkTexts s).dropLast, c.length = max_len) := by
  rw [chunkTexts_eq]
  by_cases h : s.length ≤ max_len
  · simp only [h, if_true]
    refine ⟨by simp, ?_, by simp⟩
    intro c hc
    rcases List.mem_singleton.mp hc with rfl
    exact h
  · simp only [h, if_false]
    exact ⟨chunksRec_flatten s, chunksRec_length_le s, chunksRec_dropLast_length s⟩

theorem chunking_roundtrip_witness :
    (chunkTexts (lc "hi")).flatten = lc "hi" ∧ (lc "hi").length ≤ max_len :=
  ⟨(chunking_roundtrip (lc "hi")).1,
   (chunking_roundtrip (lc "hi")).2.1 (lc "hi") (by decide)⟩

/-- Claim C1: on success, a summary of at most 4000 characters is sent as
exactly one reply, and a longer one as its consecutive 4000-character
slices in original order, each a separate reply; in particular an
8500-character summary yields exactly the three chunks of lengths 4000,
4000 and 500, in that order. -/
theorem summary_reply_chunking (s text url : List Char)
    (hlink : extract_youtube_url text = some url) :
    (handle_message ⟨some ⟨some text⟩⟩
        (.response 200 (some (wellFormedBody s))) false).actions
      = Action.sendReply ackText ::
          ((chunkTexts s).map Action.sendReply ++ [Action.deleteAck])
    ∧ (s.length ≤ 4000 → chunkTexts s = [s])
    ∧ chunkTexts (List.replicate 8500 'a')
        = [List.replicate 4000 'a', List.replicate 4000 'a',
           List.replicate 500 'a'] := by
  refine ⟨?_, ?_, ?_⟩
  · rw [handle_message_linked text url _ false hlink,
      call_gemini_wellFormed 200 s (by decide)]
  · intro hle
    rw [chunkTexts_eq]
    simp [max_len, hle]
  · unfold chunkTexts
    have hlen : (List.replicate 8500 'a').length = 8500 := List.length_replicate _ _
    rw [hlen]
    have hgt : ¬(8500 ≤ max_len) := by decide
    simp only [hgt, if_false]
    have hr : pyRange 8500 max_len = [0, 4000, 8000] := by decide
    rw [hr]
    simp only [List.map_cons, List.map_nil, List.drop_replicate,
      List.take_replicate]
    norm_num [max_len]

theorem summary_reply_chunking_witness :
    (handle_message ⟨some ⟨some (lc "see youtu.be/abc")⟩⟩
        (.response 200 (some (wellFormedBody (lc "fine")))) false).actions
      = Action.sendReply ackText ::
          ((chunkTexts (lc "fine")).map Action.sendReply ++ [Action.deleteAck])
    ∧ chunkTexts (lc "fine") = [lc "fine"] :=
  ⟨(summary_reply_chunking (lc "fine") (lc "see youtu.be/abc")
      (lc "youtu.be/abc") (by decide)).1,
   (summary_reply_chunking (lc "fine") (lc "see youtu.be/abc")
      (lc "youtu.be/abc") (by decide)).2.1 (by decide)⟩

/-- Claim C4: for every 2xx response whose parsed JSON body lacks the
expected nested path candidates[0].content.parts[0].text, the client does
not raise and returns the fixed fallback string. -/
theorem unexpected_shape_fallback (status : Nat) (data : Json)
    (hstatus : 200 ≤ status ∧ status < 300)
    (hshape : extractSummary data = none) :
    call_gemini (.response status (some data)) = .ok (.str fallbackMsg) := by
  have hs : statusRaises status = false := by
    simp only [statusRaises, Bool.and_eq_false_iff, decide_eq_false_iff_not]
    omega
  simp only [call_gemini, hs, Bool.false_eq_true, if_false, hshape,
    Option.getD_none]

theorem unexpected_shape_fallback_witness :
    (200 ≤ 200 ∧ 200 < 300) ∧ extractSummary (.obj []) = none
    ∧ call_gemini (.response 200 (some (.obj []))) = .ok (.str fallbackMsg) :=
  ⟨by omega, rfl, unexpected_shape_fallback 200 (.obj []) (by omega) rfl⟩

/-- Claim C5 as stated is false on the code: a 300 status is not 2xx, yet
`raise_for_status` only raises for 4xx/5xx, so with a well-formed JSON
body the client returns the summary and the adapter replies with it, not
with the error message. -/
theorem non2xx_counterexample :
    call_gemini (.response 300 (some (wellFormedBody (lc "S"))))
        = .ok (.str (lc "S"))
    ∧ (handle_message ⟨some ⟨some (lc "youtu.be/x")⟩⟩
          (.response 300 (some (wellFormedBody (lc "S")))) false).actions
        = [.sendReply ackText, .sendReply (lc "S"), .deleteAck]
    ∧ Action.sendReply apiErrMsg ∉
        (handle_message ⟨some ⟨some (lc "youtu.be/x")⟩⟩
          (.response 300 (some (wellFormedBody (lc "S")))) false).actions :=
  ⟨rfl, by decide, by decide⟩

/-- Claim C5, amended: for every invocation where the HTTP layer reports
a transport failure or a 4xx/5xx status (the statuses `raise_for_status`
raises for), the error propagates out of the client as a
`RequestException` and the adapter sends the fixed error message instead
of any summary reply. -/
theorem transport_or_http_error_reply (text url : List Char)
    (outcome : HttpOutcome)
    (hlink : extract_youtube_url text = some url)
    (herr : outcome = .transportError ∨
        ∃ status body, outcome = .response status body
          ∧ 400 ≤ status ∧ status < 600) :
    call_gemini outcome = .error .requestException
    ∧ (handle_message ⟨some ⟨some text⟩⟩ outcome false).actions
        = [.sendReply ackText, .sendReply apiErrMsg, .deleteAck] := by
  have hcg : call_gemini outcome = .error .requestException := by
    rcases herr with h | ⟨status, body, rfl, h4, h6⟩
    · subst h; rfl
    · have hs : statusRaises status = true := by
        simp only [statusRaises, Bool.and_eq_true, decide_eq_true_eq]
        omega
      simp only [call_gemini, hs, if_true]
  refine ⟨hcg, ?_⟩
  rw [handle_message_linked text url _ false hlink, hcg]

theorem transport_or_http_error_reply_witness :
    call_gemini .transportError = .error .requestException
    ∧ (handle_message ⟨some ⟨some (lc "youtu.be/x")⟩⟩
          .transportError false).actions
        = [.sendReply ackText, .sendReply apiErrMsg, .deleteAck] :=
  transport_or_http_error_reply (lc "youtu.be/x") (lc "youtu.be/x")
    .transportError (by decide) (Or.inl rfl)

/-- Claim C6: once the acknowledgment has been sent, deletion of it is
the final action on every exit path of the summarize-and-reply region —
success, non-string fallback and transport error alike — and an error
raised by the deletion attempt itself is swallowed: the handler's
observable behaviour does not depend on whether the deletion raises. -/
theorem ack_cleanup_always (text url : List Char) (outcome : HttpOutcome)
    (deleteRaises : Bool) (hlink : extract_youtube_url text = some url) :
    (handle_message ⟨some ⟨some text⟩⟩ outcome deleteRaises).actions.getLast?
        = some Action.deleteAck
    ∧ handle_message ⟨some ⟨some text⟩⟩ outcome deleteRaises
        = handle_message ⟨some ⟨some text⟩⟩ outcome false := by
  rw [handle_message_linked text url outcome deleteRaises hlink,
      handle_message_linked text url outcome false hlink]
  refine ⟨?_, rfl⟩
  cases hg : call_gemini outcome with
  | ok j =>
    cases j with
    | str s =>
      show (Action.sendReply ackText ::
        ((chunkTexts s).map Action.sendReply ++ [Action.deleteAck])).getLast? = _
      rw [← List.cons_append, List.getLast?_concat]
    | null => rfl
    | bool b => rfl
    | num n => rfl
    | arr es => rfl
    | obj fs => rfl
  | error e => rfl

theorem ack_cleanup_always_witness :
    (handle_message ⟨some ⟨some (lc "youtu.be/x")⟩⟩
        .transportError true).actions.getLast? = some Action.deleteAck
    ∧ handle_message ⟨some ⟨some (lc "youtu.be/x")⟩⟩ .transportError true
        = handle_message ⟨some ⟨some (lc "youtu.be/x")⟩⟩ .transportError false :=
  ack_cleanup_always (lc "youtu.be/x") (lc "youtu.be/x") .transportError true
    (by decide)

/-- Claim C7: an event without a text body, or whose text contains no
token with a recognized host substring, produces no reply at all: no
acknowledgment, no summary, no error message, and nothing raised. -/
theorem silent_when_no_link (upd : Update) (outcome : HttpOutcome)
    (dr : Bool)
    (h : upd.message = none
        ∨ (∃ m, upd.message = some m ∧ m.text = none)
        ∨ (∃ m t, upd.message = some m ∧ m.text = some t
            ∧ extract_youtube_url t = none)) :
    handle_message upd outcome dr = ⟨[], false⟩ := by
  rcases h with h | ⟨m, hm, ht⟩ | ⟨m, t, hm, ht, he⟩
  · unfold handle_message
    rw [h]
  · unfold handle_message
    rw [hm]
    dsimp only
    rw [ht]
    rfl
  · unfold handle_message
    rw [hm]
    dsimp only
    rw [ht]
    cases t with
    | nil => rfl
    | cons c cs =>
      simp only [pyFalsyText, List.isEmpty_cons, Bool.false_eq_true, if_false,
        Option.getD_some, he]

theorem silent_when_no_link_witness :
    handle_message ⟨some ⟨some (lc "hello world")⟩⟩ .transportError false
        = ⟨[], false⟩
    ∧ handle_message ⟨none⟩ .transportError false = ⟨[], false⟩ :=
  ⟨silent_when_no_link ⟨some ⟨some (lc "hello world")⟩⟩ .transportError false
      (Or.inr (Or.inr ⟨⟨some (lc "hello world")⟩, lc "hello world", rfl, rfl,
        by decide⟩)),
   silent_when_no_link ⟨none⟩ .transportError false (Or.inl rfl)⟩

/-- Claim C10: a 2xx response whose body is not parseable as JSON does not
produce the fallback string; `response.json()` raises outside the
recovery `try`, the error is in the `RequestException` family the adapter
catches, and the adapter sends the fixed API-error message. -/
theorem unparseable_body_transport_path (status : Nat) (text url : List Char)
    (hstatus : 200 ≤ status ∧ status < 300)
    (hlink : extract_youtube_url text = some url) :
    call_gemini (.response status none) = .error .requestException
    ∧ call_gemini (.response status none) ≠ .ok (.str fallbackMsg)
    ∧ (handle_message ⟨some ⟨some text⟩⟩ (.response status none) false).actions
        = [.sendReply ackText, .sendReply apiErrMsg, .deleteAck] := by
  have hs : statusRaises status = false := by
    simp only [statusRaises, Bool.and_eq_false_iff, decide_eq_false_iff_not]
    omega
  have hcg : call_gemini (.response status none) = .error .requestException := by
    simp only [call_gemini, hs, Bool.false_eq_true, if_false]
  refine ⟨hcg, by simp [hcg], ?_⟩
  rw [handle_message_linked text url _ false hlink, hcg]

theorem unparseable_body_transport_path_witness :
    call_gemini (.response 200 none) = .error .requestException
    ∧ (handle_message ⟨some ⟨some (lc "youtu.be/x")⟩⟩
          (.response 200 none) false).actions
        = [.sendReply ackText, .sendReply apiErrMsg, .deleteAck] :=
  ⟨(unparseable_body_transport_path 200 (lc "youtu.be/x") (lc "youtu.be/x")
      (by omega) (by decide)).1,
   (unparseable_body_transport_path 200 (lc "youtu.be/x") (lc "youtu.be/x")
      (by omega) (by decide)).2.2⟩

/-- Claim C8 as stated is false on the code: a credential that is present
in the environment but equal to the empty string is still rejected, since
Python `not ""` is true, so startup exits even though both variables are
present. -/
theorem startup_present_empty_counterexample :
    startup (some []) (some (lc "key")) = .error exitMsg
    ∧ startup (some []) (some (lc "key")) ≠ .ok () :=
  ⟨rfl, fun h => Except.noConfusion h⟩

/-- Claim C8, amended: startup raises `SystemExit` with the descriptive
message exactly when either credential is absent *or empty*; the event
loop is started exactly when both are present and non-empty. -/
theorem startup_credentials_gate (tok key : Option (List Char)) :
    (startup tok key = .error exitMsg
      ↔ (tok = none ∨ tok = some [] ∨ key = none ∨ key = some []))
    ∧ (startup tok key = .ok ()
      ↔ ((∃ s, tok = some s ∧ s ≠ []) ∧ (∃ s, key = some s ∧ s ≠ []))) := by
  rcases tok with _ | s
  · simp [startup, pyTruthyStr]
  · rcases key with _ | t
    · cases s <;> simp [startup, pyTruthyStr]
    · cases s <;> cases t <;>
        simp [startup, pyTruthyStr, List.isEmpty_cons, List.isEmpty_nil]

/-- Claim C9: the prompt builder is a pure function of the link; the
prompt is always the fixed template prefix, the link verbatim, and the
trailing newline.  This holds for every link, including ones containing
the brace characters of the template syntax, shown here on a concrete
brace-containing link. -/
theorem prompt_builder_verbatim (youtube_url : List Char) :
    buildPrompt youtube_url = promptPre ++ youtube_url ++ promptPost
    ∧ youtube_url <:+: buildPrompt youtube_url
    ∧ buildPrompt (lc "https://youtu.be/a\x7bb\x7d=c")
        = promptPre ++ lc "https://youtu.be/a\x7bb\x7d=c" ++ promptPost := by
  have h : ∀ u : List Char, buildPrompt u = promptPre ++ u ++ promptPost := by
    intro u
    simp [buildPrompt, pyFormat, GEMINI_PROMPT_TEMPLATE]
  exact ⟨h youtube_url, ⟨promptPre, promptPost, (h youtube_url).symm⟩,
    h (lc "https://youtu.be/a\x7bb\x7d=c")⟩

/-! ## Lemmas: whitespace invariance of the tokenizer -/

lemma tokens_all_space (v : List Char) (h : ∀ c ∈ v, isPySpace c = true) :
    tokens v = [] := by
  induction v with
  | nil => exact tokens_nil
  | cons c cs ih =>
    rw [tokens_cons_space c cs (h c (List.mem_cons_self c cs))]
    exact ih (fun d hd => h d (List.mem_cons_of_mem c hd))

lemma takeWhile_append_all (p : Char → Bool) (a b : List Char)
    (h : ∀ c ∈ a, p c = true) :
    (a ++ b).takeWhile p = a ++ b.takeWhile p := by
  induction a with
  | nil => simp
  | cons c cs ih =>
    rw [List.cons_append, List.takeWhile_cons,
      if_pos (h c (List.mem_cons_self c cs)),
      ih (fun d hd => h d (List.mem_cons_of_mem c hd)),
      List.cons_append]

lemma dropWhile_append_all (p : Char → Bool) (a b : List Char)
    (h : ∀ c ∈ a, p c = true) :
    (a ++ b).dropWhile p = b.dropWhile p := by
  induction a with
  | nil => simp
  | cons c cs ih =>
    rw [List.cons_append, List.dropWhile_cons,
      if_pos (h c (List.mem_cons_self c cs))]
    exact ih (fun d hd => h d (List.mem_cons_of_mem c hd))

lemma takeWhile_append_not (p : Char → Bool) (a b : List Char)
    (h : ∃ c ∈ a, p c = false) :
    (a ++ b).takeWhile p = a.takeWhile p
    ∧ (a ++ b).dropWhile p = a.dropWhile p ++ b := by
  induction a with
  | nil =>
    obtain ⟨c, hc, _⟩ := h
    simp at hc
  | cons c cs ih =>
    by_cases hc : p c = true
    · have hcs : ∃ d ∈ cs, p d = false := by
        obtain ⟨d, hd, hpd⟩ := h
        rcases List.mem_cons.mp hd with rfl | hd
        · rw [hc] at hpd; cases hpd
        · exact ⟨d, hd, hpd⟩
      obtain ⟨ht, hd⟩ := ih hcs
      constructor
      · rw [List.cons_append, List.takeWhile_cons, if_pos hc,
          List.takeWhile_cons, if_pos hc, ht]
      · rw [List.cons_append, List.dropWhile_cons, if_pos hc,
          List.dropWhile_cons, if_pos hc, hd]
    · constructor
      · rw [List.cons_append, List.takeWhile_cons, if_neg hc,
          List.takeWhile_cons, if_neg hc]
      · rw [List.cons_append, List.dropWhile_cons, if_neg hc,
          List.dropWhile_cons, if_neg hc, List.cons_append]

lemma tokens_append_space (u v : List Char)
    (hv : ∀ c ∈ v, isPySpace c = true) :
    tokens (u ++ v) = tokens u := by
  cases u with
  | nil =>
    rw [List.nil_append, tokens_nil, tokens_all_space v hv]
  | cons c cs =>
    by_cases hc : isPySpace c = true
    · rw [List.cons_append, tokens_cons_space c (cs ++ v) hc,
        tokens_cons_space c cs hc]
      exact tokens_append_space cs v hv
    · have hc' : isPySpace c = false := by
        cases hx : isPySpace c
        · rfl
        · exact absurd hx hc
      rw [List.cons_append, tokens_cons_nonspace c (cs ++ v) hc',
        tokens_cons_nonspace c cs hc']
      by_cases hall : ∀ d ∈ cs, (!isPySpace d) = true
      · rw [takeWhile_append_all _ cs v hall, dropWhile_append_all _ cs v hall]
        have hvtake : v.takeWhile (fun d => !isPySpace d) = [] := by
          cases v with
          | nil => rfl
          | cons x xs =>
            rw [List.takeWhile_cons, if_neg]
            rw [hv x (List.mem_cons_self x xs)]
            simp
        have hvdrop : v.dropWhile (fun d => !isPySpace d) = v := by
          cases v with
          | nil => rfl
          | cons x xs =>
            rw [List.dropWhile_cons, if_neg]
            rw [hv x (List.mem_cons_self x xs)]
            simp
        have hcsdrop : cs.dropWhile (fun d => !isPySpace d) = [] :=
          List.dropWhile_eq_nil_iff.mpr hall
        have hcstake : cs.takeWhile (fun d => !isPySpace d) = cs := by
          have h0 := List.takeWhile_append_dropWhile (fun d => !isPySpace d) cs
          rw [hcsdrop, List.append_nil] at h0
          exact h0
        rw [hvtake, hvdrop, List.append_nil, hcsdrop, tokens_nil,
          tokens_all_space v hv, hcstake]
      · have hex : ∃ d ∈ cs, (!isPySpace d) = false := by
          push_neg at hall
          obtain ⟨d, hdm, hdp⟩ := hall
          exact ⟨d, hdm, by simpa using hdp⟩
        obtain ⟨ht, hd⟩ := takeWhile_append_not _ cs v hex
        rw [ht, hd]
        rw [tokens_append_space (cs.dropWhile (fun d => !isPySpace d)) v hv]
termination_by u.length
decreasing_by
  · simp only [List.length_cons]; omega
  · have := length_dropWhile_le (fun d => !isPySpace d) tail
    simp only [List.length_cons]; omega

lemma tokens_dropWhile_space (u : List Char) :
    tokens (u.dropWhile isPySpace) = tokens u := by
  induction u with
  | nil => rfl
  | cons c cs ih =>
    by_cases hc : isPySpace c = true
    · rw [List.dropWhile_cons, if_pos hc, ih, tokens_cons_space c cs hc]
    · rw [List.dropWhile_cons, if_neg hc]

lemma tokens_stripTrailing (u : List Char) :
    tokens ((u.reverse.dropWhile isPySpace).reverse) = tokens u := by
  have hsplit :
      (u.reverse.dropWhile isPySpace).reverse
        ++ (u.reverse.takeWhile isPySpace).reverse = u := by
    rw [← List.reverse_append, List.takeWhile_append_dropWhile,
      List.reverse_reverse]
  have hsp : ∀ c ∈ (u.reverse.takeWhile isPySpace).reverse,
      isPySpace c = true := by
    intro c hc
    exact List.mem_takeWhile_imp (List.mem_reverse.mp hc)
  calc tokens ((u.reverse.dropWhile isPySpace).reverse)
      = tokens ((u.reverse.dropWhile isPySpace).reverse
          ++ (u.reverse.takeWhile isPySpace).reverse) :=
        (tokens_append_space _ _ hsp).symm
    _ = tokens u := by rw [hsplit]

lemma tokens_pyStrip (l : List Char) : tokens (pyStrip l) = tokens l := by
  unfold pyStrip
  rw [tokens_stripTrailing (l.dropWhile isPySpace), tokens_dropWhile_space]

lemma find?_first {α : Type} (p : α → Bool) (l : List α) (x : α)
    (h : l.find? p = some x) :
    p x = true ∧ ∃ pre post, l = pre ++ x :: post
      ∧ ∀ y ∈ pre, p y = false := by
  induction l with
  | nil => simp [List.find?] at h
  | cons a as ih =>
    rw [List.find?_cons] at h
    by_cases ha : p a = true
    · rw [ha] at h
      simp only [Option.some.injEq] at h
      subst h
      exact ⟨ha, [], as, rfl, by intro y hy; simp at hy⟩
    · have ha' : p a = false := by
        cases hx : p a
        · rfl
        · exact absurd hx ha
      rw [ha'] at h
      obtain ⟨hp, pre, post, heq, hpre⟩ := ih h
      refine ⟨hp, a :: pre, post, by rw [heq, List.cons_append], ?_⟩
      intro y hy
      rcases List.mem_cons.mp hy with rfl | hy
      · exact ha'
      · exact hpre y hy

/-- Claim C3: the extractor splits the text on whitespace and returns the
first token containing "youtube.com" or "youtu.be" as a substring; it
returns `none` when no token contains either, in particular on empty or
whitespace-only text.  The leading `strip` never changes the token
list. -/
theorem extractor_first_match (text : List Char) :
    extract_youtube_url text = (tokens text).find? hostMatch
    ∧ (∀ tok, extract_youtube_url text = some tok →
        ((lc "youtube.com" <:+: tok ∨ lc "youtu.be" <:+: tok)
          ∧ ∃ pre post, tokens text = pre ++ tok :: post
              ∧ ∀ t ∈ pre, hostMatch t = false))
    ∧ ((∀ tok ∈ tokens text, hostMatch tok = false) →
        extract_youtube_url text = none)
    ∧ ((∀ c ∈ text, isPySpace c = true) → extract_youtube_url text = none) := by
  have hbase : extract_youtube_url text = (tokens text).find? hostMatch := by
    unfold extract_youtube_url
    rw [tokens_pyStrip]
  refine ⟨hbase, ?_, ?_, ?_⟩
  · intro tok htok
    rw [hbase] at htok
    obtain ⟨hp, pre, post, heq, hpre⟩ := find?_first hostMatch (tokens text) tok htok
    refine ⟨?_, pre, post, heq, hpre⟩
    unfold hostMatch at hp
    simpa using hp
  · intro hnone
    rw [hbase]
    refine List.find?_eq_none.mpr ?_
    intro tok htok
    rw [hnone tok htok]
    simp
  · intro hws
    rw [hbase, tokens_all_space text hws]
    rfl

theorem extractor_first_match_witness :
    extract_youtube_url (lc " check https://youtu.be/abc123 thanks ")
        = (tokens (lc " check https://youtu.be/abc123 thanks ")).find? hostMatch
    ∧ extract_youtube_url (lc "   ") = none :=
  ⟨(extractor_first_match (lc " check https://youtu.be/abc123 thanks ")).1,
   (extractor_first_match (lc "   ")).2.2.2 (by decide)⟩

end TgYtBot
